import Mathlib

/-!
Shallow embedding of `chainer/graph_optimizations/static_graph_utilities.py`.

Modelling conventions:

* A raw data array ("buffer") is identified by a natural number index into an
  explicit `Store`; the index plays the role of Python object identity
  (`id(var.data)`), and the stored `List Int` plays the role of the array's
  contents.  An in-place element-wise copy (`a[:] = b`) is a `Store.write`
  that keeps the buffer index, while `.copy()` is a `Store.alloc` of a fresh
  index holding the same contents.
* A `chainer.Variable` is a wrapper carrying a buffer index `data` and an
  `is_static` flag.
* The lazily attached function-node attributes (`schedule_func`,
  `_forward_static_arrays_info`, `_backward_static_arrays_info`) are modelled
  as `Option` fields of `FunctionNode`; `none` means the attribute is absent.
* The process-wide `chainer.config.schedule_func` slot is modelled as an
  explicit `Config` value passed to every function that could read it.
* Raising an exception is modelled in the return type: a `RuntimeError`
  raised by `static_forward_optimizations` is an `Option StaticError`
  component of the result (the mutations already performed persist, as they
  do in Python), and a crash (AttributeError / IndexError) in the backward
  bookkeeping functions makes them return `none`.
-/

/-- The arena of raw data arrays: a buffer's identity is its index, its
contents a list of integers. -/
structure Store where
  bufs : List (List Int)
deriving Repr, DecidableEq

/-- Read the contents of buffer `b` (empty for a dangling index). -/
def Store.read (st : Store) (b : Nat) : List Int :=
  st.bufs.getD b []

/-- Overwrite the contents of buffer `b` in place (`a[:] = v`): the buffer
keeps its identity, only its contents change. -/
def Store.write (st : Store) (b : Nat) (v : List Int) : Store :=
  ⟨st.bufs.set b v⟩

/-- Allocate a fresh buffer holding contents `v` (`a.copy()`); returns the
new store and the fresh buffer's identity. -/
def Store.alloc (st : Store) (v : List Int) : Store × Nat :=
  (⟨st.bufs ++ [v]⟩, st.bufs.length)

/-- A `chainer.Variable`: a wrapper around a raw data buffer (identified by
index `data`) plus the `is_static` flag set by `mark_static_vars`. -/
structure Variable where
  data : Nat
  is_static : Bool
deriving Repr, DecidableEq

/-- The backward static schedule object (`StaticScheduleFunction` of the
backward pass): `_in_arrays` are the pre-allocated static input buffers,
`_out_arrays` the (initially unset) references to output-gradient buffers. -/
structure BackwardSchedule where
  in_arrays : List Nat
  out_arrays : List (Option Nat)
deriving Repr, DecidableEq

/-- The forward static schedule object: the reverse lookup table
`_input_var_array_to_static_array_index` from a buffer identity to its slot
index (an association list, as the dict has unique keys), together with its
paired backward schedule (`get_backward_schedule_func()`). -/
structure Schedule where
  input_var_array_to_static_array_index : List (Nat × Nat)
  backward : BackwardSchedule
deriving Repr, DecidableEq

/-- A `chainer.FunctionNode` with the metadata surface used by the module.
`none` in an `Option` field models the attribute being absent. -/
structure FunctionNode where
  schedule_func : Option Schedule
  supports_static_optimizations : Bool
  forward_static_arrays_info : Option (List (Nat × Nat))
  backward_static_arrays_info : Option (List (Nat × Nat))
deriving Repr, DecidableEq

/-- The process-wide `chainer.config` trace-mode state: the single active
schedule reference, or `none`. -/
structure Config where
  schedule_func : Option Schedule
deriving Repr, DecidableEq

/-- `is_static_func(func)`: `hasattr(func, 'schedule_func')`. -/
def is_static_func (func : FunctionNode) : Bool :=
  func.schedule_func.isSome

/-- `get_static_schedule(func)`: `getattr(func, 'schedule_func', None)`. -/
def get_static_schedule (func : FunctionNode) : Option Schedule :=
  func.schedule_func

/-- `is_trace_mode()`: `chainer.config.schedule_func is not None`. -/
def is_trace_mode (cfg : Config) : Bool :=
  cfg.schedule_func.isSome

/-- `mark_static_vars(input_vars)`: if trace mode is on, set `is_static` on
every variable; otherwise no-op.  Returns the updated variable list. -/
def mark_static_vars (cfg : Config) (input_vars : List Variable) : List Variable :=
  if is_trace_mode cfg then
    input_vars.map (fun var => { var with is_static := true })
  else
    input_vars

/-- The single error kind of the module: the `RuntimeError` raised by
`static_forward_optimizations` for an operation without static-optimization
support, carrying the offending function node. -/
inductive StaticError where
  | unsupported_op (func : FunctionNode)
deriving Repr, DecidableEq

/-- One iteration of the loop of `static_forward_optimizations`: for input
position `p.1` holding variable `p.2`, if `id(var.data)` is a key of the
schedule's `_input_var_array_to_static_array_index`, append
`(func_arg_index, chain_arg_index)` to `func._forward_static_arrays_info`
(creating the list if the attribute is absent). -/
def sfo_step (schedule_function : Schedule) (func : FunctionNode)
    (p : Nat × Variable) : FunctionNode :=
  match schedule_function.input_var_array_to_static_array_index.lookup p.2.data with
  | some chain_arg_index =>
    let forward_static_arrays_info := func.forward_static_arrays_info.getD []
    let new_info := forward_static_arrays_info ++ [(p.1, chain_arg_index)]
    { func with forward_static_arrays_info := some new_info }
  | none => func

/-- `static_forward_optimizations(func, in_vars)`: if trace mode is off,
no-op.  Otherwise record, for each input position whose buffer identity is
registered in the active schedule, the `(position, slot)` pair on `func`;
after the loop, raise if `func` does not support static optimizations.
The result is the mutated `func` together with the raised error, if any. -/
def static_forward_optimizations (cfg : Config) (func : FunctionNode)
    (in_vars : List Variable) : FunctionNode × Option StaticError :=
  match cfg.schedule_func with
  | none => (func, none)
  | some schedule_function =>
    let func := in_vars.enum.foldl (sfo_step schedule_function) func
    if func.supports_static_optimizations then
      (func, none)
    else
      (func, some (.unsupported_op func))

/-- The `(position, slot)` entry contributed by the enumerated input `p`, if
its buffer identity is a key of the schedule's identity-to-slot table. -/
def entryOf (schedule_function : Schedule) (p : Nat × Variable) :
    Option (Nat × Nat) :=
  (schedule_function.input_var_array_to_static_array_index.lookup p.2.data).map
    (fun chain_arg_index => (p.1, chain_arg_index))

/-- The `(position, slot)` pairs that `static_forward_optimizations` appends
for `in_vars` under schedule `schedule_function`: input positions whose
buffer identity is a key of the schedule's identity-to-slot table, each
paired with its slot.  Matching is by buffer identity only; contents play no
role (they are not even accessible here). -/
def matchedEntries (schedule_function : Schedule) (in_vars : List Variable) :
    List (Nat × Nat) :=
  in_vars.enum.filterMap (entryOf schedule_function)

/-- One iteration of the loop of `check_func_backward_outputs`, acting on the
gradient list and the store: copy the contents of
`grad_outputs[func_arg_index].data` in place into the pre-allocated buffer
`backward_schedule._in_arrays[chain_arg_index]`, then rebind the variable's
`data` to that buffer.  `none` models an IndexError. -/
def cfbo_step (backward_schedule : BackwardSchedule)
    (acc : List Variable × Store) (p : Nat × Nat) :
    Option (List Variable × Store) := do
  let input_var ← acc.1[p.1]?
  let static_arr ← backward_schedule.in_arrays[p.2]?
  let st := acc.2.write static_arr (acc.2.read input_var.data)
  some (acc.1.set p.1 { input_var with data := static_arr }, st)

/-- `check_func_backward_outputs(func, grad_outputs)`: if
`func._backward_static_arrays_info` is absent, no-op.  Otherwise, for each
recorded `(position, slot)` pair, copy `grad_outputs[position].data` into the
backward schedule's pre-allocated `_in_arrays[slot]` buffer and rebind the
gradient variable to it.  `none` models a crash (missing schedule attribute
or an out-of-range index). -/
def check_func_backward_outputs (_cfg : Config) (func : FunctionNode)
    (grad_outputs : List Variable) (st : Store) :
    Option (List Variable × Store) :=
  match func.backward_static_arrays_info with
  | none => some (grad_outputs, st)
  | some backward_static_arrays_info => do
    let forward_schedule ← get_static_schedule func
    let backward_schedule := forward_schedule.backward
    backward_static_arrays_info.foldlM (cfbo_step backward_schedule)
      (grad_outputs, st)

/-- One iteration of the loop of `check_func_backward_inputs`: set
`backward_schedule._out_arrays[chain_arg_index]` to reference
`grad_inputs[func_arg_index].data`, then replace that variable's `data` with
a freshly allocated copy.  `none` models an IndexError. -/
def cfbi_step (acc : List Variable × Store × BackwardSchedule) (p : Nat × Nat) :
    Option (List Variable × Store × BackwardSchedule) := do
  let grad_var ← acc.1[p.1]?
  let st := acc.2.1
  let backward_schedule := acc.2.2
  if p.2 < backward_schedule.out_arrays.length then
    let backward_schedule := { backward_schedule with
      out_arrays := backward_schedule.out_arrays.set p.2 (some grad_var.data) }
    let alloc_result := st.alloc (st.read grad_var.data)
    some (acc.1.set p.1 { grad_var with data := alloc_result.2 },
      alloc_result.1, backward_schedule)
  else
    none

/-- `check_func_backward_inputs(func, grad_inputs)`: if
`func._forward_static_arrays_info` is absent, no-op.  Otherwise, for each
recorded `(position, slot)` pair, make the backward schedule's
`_out_arrays[slot]` reference `grad_inputs[position].data` and replace the
variable's `data` with an independent copy.  The updated backward schedule is
returned through the function node's `schedule_func` reference.  `none`
models a crash (missing schedule attribute or an out-of-range index). -/
def check_func_backward_inputs (_cfg : Config) (func : FunctionNode)
    (grad_inputs : List Variable) (st : Store) :
    Option (FunctionNode × List Variable × Store) :=
  match func.forward_static_arrays_info with
  | none => some (func, grad_inputs, st)
  | some forward_static_arrays_info => do
    let forward_schedule ← get_static_schedule func
    let backward_schedule := forward_schedule.backward
    let result ← forward_static_arrays_info.foldlM cfbi_step
      (grad_inputs, st, backward_schedule)
    let new_schedule := some { forward_schedule with backward := result.2.2 }
    some ({ func with schedule_func := new_schedule }, result.1, result.2.1)

/-! ## Helper lemmas -/

/-- Reading a buffer other than the one written is unchanged. -/
theorem Store.read_write_ne (st : Store) (b b' : Nat) (v : List Int)
    (h : b' ≠ b) : (st.write b v).read b' = st.read b' := by
  simp [Store.read, Store.write, List.getD]
  rw [List.getElem?_set_ne (by omega)]

/-- Reading the buffer just written yields the written contents (the buffer
must exist in the store). -/
theorem Store.read_write_eq (st : Store) (b : Nat) (v : List Int)
    (h : b < st.bufs.length) : (st.write b v).read b = v := by
  simp [Store.read, Store.write, List.getD]
  rw [List.getElem?_set_self]
  · simp
  · exact h

/-! ## Claim theorems: static-mode query, marking, no-op and independence -/

/-- C9: `is_static_func func` is true exactly when `get_static_schedule func`
returns a non-none schedule reference.  Both functions are pure Lean
functions of the node alone, so freedom from side effects on the node or any
global state holds by construction. -/
theorem is_static_func_iff_get_static_schedule (func : FunctionNode) :
    is_static_func func = true ↔ (get_static_schedule func).isSome = true :=
  Iff.rfl

/-- C10: `mark_static_vars` sets `is_static` on every variable when trace
mode is active and is the identity when it is inactive; in both cases the
`data` field of every variable is unchanged. -/
theorem mark_static_vars_spec (cfg : Config) (input_vars : List Variable) :
    mark_static_vars cfg input_vars =
      (if is_trace_mode cfg then
        input_vars.map (fun var => { var with is_static := true })
      else input_vars) ∧
    (mark_static_vars cfg input_vars).map Variable.data =
      input_vars.map Variable.data := by
  refine ⟨rfl, ?_⟩
  unfold mark_static_vars
  split
  · simp [List.map_map, Function.comp]
  · rfl

/-- C5: when trace mode is inactive (the process-wide schedule slot is
`none`), `static_forward_optimizations` is a complete no-op — the node is
returned unchanged and no error is raised — even for a node with
`supports_static_optimizations = false`. -/
theorem static_forward_optimizations_no_trace (cfg : Config)
    (func : FunctionNode) (in_vars : List Variable)
    (h : is_trace_mode cfg = false) :
    static_forward_optimizations cfg func in_vars = (func, none) := by
  cases hcfg : cfg.schedule_func with
  | none => simp [static_forward_optimizations, hcfg]
  | some s => simp [is_trace_mode, hcfg] at h

/-- Witness for C5 at a concrete unsupported operation and nonempty input. -/
theorem static_forward_optimizations_no_trace_witness :
    static_forward_optimizations ⟨none⟩ ⟨none, false, none, none⟩ [⟨0, false⟩]
      = (⟨none, false, none, none⟩, none) :=
  static_forward_optimizations_no_trace ⟨none⟩ ⟨none, false, none, none⟩
    [⟨0, false⟩] (by decide)

/-- C8: the two backward bookkeeping functions never read the process-wide
trace-mode slot: their results are identical for any two configurations that
differ only in the `chainer.config.schedule_func` value. -/
theorem backward_bookkeeping_config_independent (cfg cfg' : Config)
    (func : FunctionNode) (grads : List Variable) (st : Store) :
    check_func_backward_outputs cfg func grads st =
      check_func_backward_outputs cfg' func grads st ∧
    check_func_backward_inputs cfg func grads st =
      check_func_backward_inputs cfg' func grads st :=
  ⟨rfl, rfl⟩

/-- C7: missing metadata is silently skipped: with
`_backward_static_arrays_info` absent, `check_func_backward_outputs` returns
the gradients and store unchanged; with `_forward_static_arrays_info`
absent, `check_func_backward_inputs` returns the node, gradients and store
unchanged.  Neither crashes (both return `some`). -/
theorem backward_bookkeeping_noop_without_info (cfg : Config)
    (func : FunctionNode) (grads : List Variable) (st : Store) :
    (func.backward_static_arrays_info = none →
      check_func_backward_outputs cfg func grads st = some (grads, st)) ∧
    (func.forward_static_arrays_info = none →
      check_func_backward_inputs cfg func grads st = some (func, grads, st)) := by
  constructor
  · intro h
    simp [check_func_backward_outputs, h]
  · intro h
    simp [check_func_backward_inputs, h]

/-- Witness for C7 at a concrete node with both info attributes absent. -/
theorem backward_bookkeeping_noop_without_info_witness :
    check_func_backward_outputs ⟨none⟩ ⟨none, true, none, none⟩ [] ⟨[]⟩
      = some ([], ⟨[]⟩) ∧
    check_func_backward_inputs ⟨none⟩ ⟨none, true, none, none⟩ [] ⟨[]⟩
      = some (⟨none, true, none, none⟩, [], ⟨[]⟩) :=
  ⟨(backward_bookkeeping_noop_without_info ⟨none⟩ ⟨none, true, none, none⟩ [] ⟨[]⟩).1 rfl,
   (backward_bookkeeping_noop_without_info ⟨none⟩ ⟨none, true, none, none⟩ [] ⟨[]⟩).2 rfl⟩

/-! ## Forward bookkeeping: fold lemmas -/

theorem entryOf_eq_none (schedule_function : Schedule) (p : Nat × Variable)
    (hl : schedule_function.input_var_array_to_static_array_index.lookup p.2.data
      = none) : entryOf schedule_function p = none := by
  simp [entryOf, hl]

theorem entryOf_eq_some (schedule_function : Schedule) (p : Nat × Variable)
    (c : Nat)
    (hl : schedule_function.input_var_array_to_static_array_index.lookup p.2.data
      = some c) : entryOf schedule_function p = some (p.1, c) := by
  simp [entryOf, hl]

theorem matchedEntries_def (schedule_function : Schedule)
    (in_vars : List Variable) :
    matchedEntries schedule_function in_vars
      = in_vars.enum.filterMap (entryOf schedule_function) := rfl

/-- `sfo_step` touches only `forward_static_arrays_info`. -/
theorem sfo_step_preserves (sched : Schedule) (func : FunctionNode)
    (p : Nat × Variable) :
    (sfo_step sched func p).schedule_func = func.schedule_func ∧
    (sfo_step sched func p).supports_static_optimizations
      = func.supports_static_optimizations ∧
    (sfo_step sched func p).backward_static_arrays_info
      = func.backward_static_arrays_info := by
  unfold sfo_step
  split <;> simp

/-- The forward-bookkeeping loop touches only `forward_static_arrays_info`. -/
theorem sfo_fold_preserves (sched : Schedule) :
    ∀ (l : List (Nat × Variable)) (func : FunctionNode),
    (l.foldl (sfo_step sched) func).schedule_func = func.schedule_func ∧
    (l.foldl (sfo_step sched) func).supports_static_optimizations
      = func.supports_static_optimizations ∧
    (l.foldl (sfo_step sched) func).backward_static_arrays_info
      = func.backward_static_arrays_info
  | [], func => ⟨rfl, rfl, rfl⟩
  | p :: ps, func => by
    rw [List.foldl_cons]
    have h1 := sfo_step_preserves sched func p
    have h2 := sfo_fold_preserves sched ps (sfo_step sched func p)
    exact ⟨h2.1.trans h1.1, h2.2.1.trans h1.2.1, h2.2.2.trans h1.2.2⟩

/-- Closed form of the forward-bookkeeping loop: the recorded info is the
original one with all matched `(position, slot)` entries appended; the
attribute is created only when some input matches. -/
theorem sfo_fold_info (sched : Schedule) :
    ∀ (l : List (Nat × Variable)) (func : FunctionNode),
    (l.foldl (sfo_step sched) func).forward_static_arrays_info =
      if l.filterMap (entryOf sched) = [] then func.forward_static_arrays_info
      else some (func.forward_static_arrays_info.getD []
        ++ l.filterMap (entryOf sched))
  | [], func => by simp
  | p :: ps, func => by
    rw [List.foldl_cons]
    cases hl : sched.input_var_array_to_static_array_index.lookup p.2.data with
    | none =>
      have hstep : sfo_step sched func p = func := by simp [sfo_step, hl]
      rw [hstep, List.filterMap_cons_none (entryOf_eq_none sched p hl)]
      exact sfo_fold_info sched ps func
    | some c =>
      have hstep : sfo_step sched func p = { func with
          forward_static_arrays_info :=
            some (func.forward_static_arrays_info.getD [] ++ [(p.1, c)]) } := by
        simp [sfo_step, hl]
      rw [hstep, List.filterMap_cons_some (entryOf_eq_some sched p c hl)]
      rw [sfo_fold_info sched ps]
      by_cases hrest : ps.filterMap (entryOf sched) = []
      · simp [hrest]
      · simp [hrest]

/-- If no input matches, the forward-bookkeeping loop leaves the node
entirely unchanged. -/
theorem sfo_fold_id (sched : Schedule) :
    ∀ (l : List (Nat × Variable)) (func : FunctionNode),
    l.filterMap (entryOf sched) = [] → l.foldl (sfo_step sched) func = func
  | [], _, _ => rfl
  | p :: ps, func, h => by
    cases hl : sched.input_var_array_to_static_array_index.lookup p.2.data with
    | none =>
      have hstep : sfo_step sched func p = func := by simp [sfo_step, hl]
      rw [List.foldl_cons, hstep]
      apply sfo_fold_id
      rwa [List.filterMap_cons_none (entryOf_eq_none sched p hl)] at h
    | some c =>
      rw [List.filterMap_cons_some (entryOf_eq_some sched p c hl)] at h
      exact absurd h (List.cons_ne_nil _ _)

/-- With trace mode active, `static_forward_optimizations` runs the loop and
then the capability check. -/
theorem static_forward_optimizations_some (sched : Schedule)
    (func : FunctionNode) (in_vars : List Variable) :
    static_forward_optimizations ⟨some sched⟩ func in_vars =
      (if (in_vars.enum.foldl (sfo_step sched) func).supports_static_optimizations
        then (in_vars.enum.foldl (sfo_step sched) func, none)
        else (in_vars.enum.foldl (sfo_step sched) func,
          some (.unsupported_op (in_vars.enum.foldl (sfo_step sched) func)))) :=
  rfl

/-- The node returned by `static_forward_optimizations` under an active
schedule is always the loop's result, whether or not the error is raised. -/
theorem static_forward_optimizations_fst (sched : Schedule)
    (func : FunctionNode) (in_vars : List Variable) :
    (static_forward_optimizations ⟨some sched⟩ func in_vars).1
      = in_vars.enum.foldl (sfo_step sched) func := by
  rw [static_forward_optimizations_some]
  by_cases hs : (in_vars.enum.foldl (sfo_step sched) func).supports_static_optimizations
  · simp [hs]
  · simp [hs]

/-! ## Claim theorems: forward bookkeeping -/

/-- C4: with trace mode active, matching is by buffer identity and the
appended entries are exactly one `(position, slot)` pair per input position
whose buffer identity is registered in the schedule's identity-to-slot
table, in position order.  Since `matchedEntries` consults only the buffer
identity `var.data` (contents are not accessible), a variable with equal
contents but a different identity contributes nothing, and a registered
buffer appearing at several positions contributes one pair per position
(no deduplication by slot). -/
theorem static_forward_optimizations_matches_by_identity (sched : Schedule)
    (func : FunctionNode) (in_vars : List Variable) :
    (static_forward_optimizations ⟨some sched⟩ func in_vars).1.forward_static_arrays_info.getD []
      = func.forward_static_arrays_info.getD []
        ++ matchedEntries sched in_vars := by
  rw [static_forward_optimizations_fst, sfo_fold_info, matchedEntries_def]
  by_cases hm : in_vars.enum.filterMap (entryOf sched) = []
  · simp [hm]
  · simp [hm]

/-- C6: `forward_static_arrays_info` is append-only across two calls: the
first call's entries survive the second call, which appends its own entries
after them. -/
theorem forward_static_arrays_info_append_only (sched : Schedule)
    (func : FunctionNode) (vars1 vars2 : List Variable) (i1 s1 i2 s2 : Nat)
    (h1 : matchedEntries sched vars1 = [(i1, s1)])
    (h2 : matchedEntries sched vars2 = [(i2, s2)])
    (hne : s1 ≠ s2) :
    (static_forward_optimizations ⟨some sched⟩
        (static_forward_optimizations ⟨some sched⟩ func vars1).1
        vars2).1.forward_static_arrays_info =
      some (func.forward_static_arrays_info.getD [] ++ [(i1, s1), (i2, s2)]) := by
  rw [matchedEntries_def] at h1 h2
  rw [static_forward_optimizations_fst, static_forward_optimizations_fst]
  rw [sfo_fold_info, h2, sfo_fold_info, h1]
  simp

/-- Witness for C6: a schedule with buffers `5` and `7` registered at slots
`0` and `1`; two calls, each matching one slot, leave both entries. -/
theorem forward_static_arrays_info_append_only_witness :
    (static_forward_optimizations ⟨some ⟨[(5, 0), (7, 1)], ⟨[], []⟩⟩⟩
        (static_forward_optimizations ⟨some ⟨[(5, 0), (7, 1)], ⟨[], []⟩⟩⟩
          ⟨none, true, none, none⟩ [⟨5, false⟩]).1
        [⟨7, false⟩]).1.forward_static_arrays_info = some [(0, 0), (0, 1)] :=
  forward_static_arrays_info_append_only ⟨[(5, 0), (7, 1)], ⟨[], []⟩⟩
    ⟨none, true, none, none⟩ [⟨5, false⟩] [⟨7, false⟩] 0 0 0 1
    (by decide) (by decide) (by decide)

/-- Counterexample to C1 as stated: an unsupported operation called under an
active schedule with an input whose buffer identity is registered does raise
the error, but its `forward_static_arrays_info` is changed (from absent to
one recorded entry) before the error is raised — the bookkeeping performed
by the loop is not rolled back. -/
theorem static_forward_optimizations_commits_then_raises :
    ((static_forward_optimizations ⟨some ⟨[(0, 0)], ⟨[], []⟩⟩⟩
        ⟨none, false, none, none⟩ [⟨0, false⟩]).2).isSome = true ∧
    (static_forward_optimizations ⟨some ⟨[(0, 0)], ⟨[], []⟩⟩⟩
        ⟨none, false, none, none⟩ [⟨0, false⟩]).1.forward_static_arrays_info
      = some [(0, 0)] := by decide

/-- C1 (amended): with trace mode active, an operation that does not support
static optimizations always makes `static_forward_optimizations` raise the
Unsupported-Operation-In-Trace error carrying the offending operation; the
matching loop runs before the check, so the operation's state (in
particular `forward_static_arrays_info`) is unchanged exactly when no input
matched a registered buffer. -/
theorem static_forward_optimizations_unsupported (sched : Schedule)
    (func : FunctionNode) (in_vars : List Variable)
    (h : func.supports_static_optimizations = false) :
    (static_forward_optimizations ⟨some sched⟩ func in_vars).2 =
      some (.unsupported_op
        (static_forward_optimizations ⟨some sched⟩ func in_vars).1) ∧
    (matchedEntries sched in_vars = [] →
      (static_forward_optimizations ⟨some sched⟩ func in_vars).1 = func) := by
  have hs : (in_vars.enum.foldl (sfo_step sched) func).supports_static_optimizations = false := by
    rw [(sfo_fold_preserves sched in_vars.enum func).2.1, h]
  constructor
  · rw [static_forward_optimizations_some]
    simp [hs]
  · intro hm
    rw [matchedEntries_def] at hm
    rw [static_forward_optimizations_fst]
    exact sfo_fold_id sched in_vars.enum func hm

/-- Witness for the amended C1 at a concrete unsupported operation whose
input does not match any registered buffer. -/
theorem static_forward_optimizations_unsupported_witness :
    (static_forward_optimizations ⟨some ⟨[(3, 0)], ⟨[], []⟩⟩⟩
        ⟨none, false, none, none⟩ [⟨9, false⟩]).2 =
      some (.unsupported_op (static_forward_optimizations ⟨some ⟨[(3, 0)], ⟨[], []⟩⟩⟩
        ⟨none, false, none, none⟩ [⟨9, false⟩]).1) ∧
    (matchedEntries ⟨[(3, 0)], ⟨[], []⟩⟩ [⟨9, false⟩] = [] →
      (static_forward_optimizations ⟨some ⟨[(3, 0)], ⟨[], []⟩⟩⟩
        ⟨none, false, none, none⟩ [⟨9, false⟩]).1 = ⟨none, false, none, none⟩) :=
  static_forward_optimizations_unsupported ⟨[(3, 0)], ⟨[], []⟩⟩
    ⟨none, false, none, none⟩ [⟨9, false⟩] (by decide)

/-! ## Backward bookkeeping: list and store helpers -/

theorem list_getD_set_ne {α : Type} (l : List α) (i j : Nat) (v d : α)
    (h : j ≠ i) : (l.set i v).getD j d = l.getD j d := by
  simp [List.getD]
  rw [List.getElem?_set_ne (by omega)]

theorem list_getD_set_eq {α : Type} (l : List α) (i : Nat) (v d : α)
    (h : i < l.length) : (l.set i v).getD i d = v := by
  simp [List.getD]
  rw [List.getElem?_set_self]
  · simp
  · exact h

theorem list_getD_of_getElem {α : Type} (l : List α) (i : Nat) (d : α)
    (h : i < l.length) : l[i]? = some (l.getD i d) := by
  rw [List.getElem?_eq_getElem h, List.getD_eq_getElem l d h]

/-- Allocation preserves the contents of every existing buffer. -/
theorem Store.read_alloc_old (st : Store) (v : List Int) (b : Nat)
    (h : b < st.bufs.length) : (st.alloc v).1.read b = st.read b := by
  simp [Store.alloc, Store.read, List.getD]
  rw [List.getElem?_append_left h]

/-- The freshly allocated buffer holds the requested contents. -/
theorem Store.read_alloc_new (st : Store) (v : List Int) :
    (st.alloc v).1.read (st.alloc v).2 = v := by
  simp [Store.alloc, Store.read, List.getD]

theorem Store.length_write (st : Store) (b : Nat) (v : List Int) :
    (st.write b v).bufs.length = st.bufs.length := by
  simp [Store.write]

theorem Store.length_alloc (st : Store) (v : List Int) :
    (st.alloc v).1.bufs.length = st.bufs.length + 1 := by
  simp [Store.alloc]

/-- Invariant of the `check_func_backward_outputs` loop: under distinct
positions, distinct pre-allocated buffers, separation of the pre-allocated
buffers from the incoming gradient buffers, and in-range indices, the loop
succeeds, rebinds each listed gradient variable to its slot's pre-allocated
buffer, and leaves that buffer holding the gradient's original contents;
everything else is untouched. -/
theorem cfbo_fold (bs : BackwardSchedule) :
    ∀ (info : List (Nat × Nat)) (gs : List Variable) (st : Store),
    (info.map Prod.fst).Nodup →
    (info.map (fun q => bs.in_arrays.getD q.2 0)).Nodup →
    (∀ p ∈ info, ∀ q ∈ info,
      bs.in_arrays.getD q.2 0 ≠ (gs.getD p.1 ⟨0, false⟩).data) →
    (∀ p ∈ info, p.1 < gs.length ∧ p.2 < bs.in_arrays.length) →
    (∀ q ∈ info, bs.in_arrays.getD q.2 0 < st.bufs.length) →
    ∃ gs' st',
      info.foldlM (cfbo_step bs) (gs, st) = some (gs', st') ∧
      gs'.length = gs.length ∧
      st'.bufs.length = st.bufs.length ∧
      (∀ j, j ∉ info.map Prod.fst → gs'.getD j ⟨0, false⟩ = gs.getD j ⟨0, false⟩) ∧
      (∀ b, (∀ q ∈ info, b ≠ bs.in_arrays.getD q.2 0) → st'.read b = st.read b) ∧
      (∀ p ∈ info,
        gs'.getD p.1 ⟨0, false⟩
          = { gs.getD p.1 ⟨0, false⟩ with data := bs.in_arrays.getD p.2 0 } ∧
        st'.read (bs.in_arrays.getD p.2 0)
          = st.read ((gs.getD p.1 ⟨0, false⟩).data))
  | [], gs, st, _, _, _, _, _ =>
    ⟨gs, st, rfl, rfl, rfl, fun _ _ => rfl, fun _ _ => rfl,
      fun p hp => absurd hp (List.not_mem_nil p)⟩
  | (i, s) :: rest, gs, st, hpos, hbuf, hsep, hval, hvb => by
    obtain ⟨hi, hs⟩ := hval (i, s) (List.mem_cons_self _ _)
    have hb : bs.in_arrays.getD s 0 < st.bufs.length :=
      hvb (i, s) (List.mem_cons_self _ _)
    have hstep : cfbo_step bs (gs, st) (i, s) =
        some (gs.set i { gs.getD i ⟨0, false⟩ with data := bs.in_arrays.getD s 0 },
          st.write (bs.in_arrays.getD s 0)
            (st.read (gs.getD i ⟨0, false⟩).data)) := by
      simp only [cfbo_step, list_getD_of_getElem gs i ⟨0, false⟩ hi,
        list_getD_of_getElem bs.in_arrays s 0 hs, Option.bind_eq_bind,
        Option.some_bind]
    simp only [List.map_cons] at hpos hbuf
    obtain ⟨hi_notin, hpos'⟩ := List.nodup_cons.mp hpos
    obtain ⟨hb_notin, hbuf'⟩ := List.nodup_cons.mp hbuf
    have hne_pos : ∀ p ∈ rest, p.1 ≠ i := by
      intro p hp heq
      exact hi_notin (heq ▸ List.mem_map_of_mem Prod.fst hp)
    have hgs1_frame : ∀ p ∈ rest,
        (gs.set i { gs.getD i ⟨0, false⟩ with
          data := bs.in_arrays.getD s 0 }).getD p.1 ⟨0, false⟩
          = gs.getD p.1 ⟨0, false⟩ := by
      intro p hp
      exact list_getD_set_ne gs i p.1 _ _ (hne_pos p hp)
    have hne_buf : ∀ q ∈ rest, bs.in_arrays.getD s 0 ≠ bs.in_arrays.getD q.2 0 := by
      intro q hq heq
      exact hb_notin (heq ▸ List.mem_map_of_mem _ hq)
    obtain ⟨gs', st', hrun, hlen, hslen, hgframe, hsframe, hmem⟩ :=
      cfbo_fold bs rest
        (gs.set i { gs.getD i ⟨0, false⟩ with data := bs.in_arrays.getD s 0 })
        (st.write (bs.in_arrays.getD s 0) (st.read (gs.getD i ⟨0, false⟩).data))
        hpos' hbuf'
        (by
          intro p hp q hq
          rw [hgs1_frame p hp]
          exact hsep p (List.mem_cons_of_mem _ hp) q (List.mem_cons_of_mem _ hq))
        (by
          intro p hp
          rw [List.length_set]
          exact hval p (List.mem_cons_of_mem _ hp))
        (by
          intro q hq
          rw [Store.length_write]
          exact hvb q (List.mem_cons_of_mem _ hq))
    refine ⟨gs', st', ?_, ?_, ?_, ?_, ?_, ?_⟩
    · rw [List.foldlM_cons, hstep]
      simpa using hrun
    · rw [hlen, List.length_set]
    · rw [hslen, Store.length_write]
    · intro j hj
      simp only [List.map_cons, List.mem_cons, not_or] at hj
      rw [hgframe j hj.2]
      exact list_getD_set_ne gs i j _ _ hj.1
    · intro bb hbb
      have h1 : ∀ q ∈ rest, bb ≠ bs.in_arrays.getD q.2 0 := by
        intro q hq
        exact hbb q (List.mem_cons_of_mem _ hq)
      rw [hsframe bb h1]
      exact Store.read_write_ne st _ bb _ (hbb (i, s) (List.mem_cons_self _ _))
    · intro p hp
      rcases List.mem_cons.mp hp with heq | hmem'
      · subst heq
        constructor
        · rw [hgframe i (by
            intro hmemi
            exact hi_notin hmemi)]
          exact list_getD_set_eq gs i _ _ hi
        · rw [hsframe (bs.in_arrays.getD s 0) hne_buf]
          exact Store.read_write_eq st _ _ hb
      · obtain ⟨h1, h2⟩ := hmem p hmem'
        constructor
        · rw [h1, hgs1_frame p hmem']
        · rw [h2, hgs1_frame p hmem']
          exact Store.read_write_ne st _ _ _
            (Ne.symm (hsep p (List.mem_cons_of_mem _ hmem') (i, s)
              (List.mem_cons_self _ _)))

/-! ## Claim theorems: backward bookkeeping, outputs side -/

/-- C2: for an operation whose `_backward_static_arrays_info` is present,
`check_func_backward_outputs` succeeds and, for each recorded
`(position, slot)` pair, the backward schedule's pre-allocated
`_in_arrays[slot]` buffer (whose identity is untouched — the copy is in
place at that same index) ends up holding the original contents of
`grad_outputs[position].data`, and `grad_outputs[position].data` is rebound
to that very pre-allocated buffer.  The hypotheses state the schedule's
well-formedness: distinct positions, distinct pre-allocated buffers,
pre-allocated buffers distinct from the dynamically allocated gradient
buffers, and in-range indices. -/
theorem check_func_backward_outputs_spec (cfg : Config) (func : FunctionNode)
    (fsched : Schedule) (info : List (Nat × Nat))
    (grad_outputs : List Variable) (st : Store)
    (hinfo : func.backward_static_arrays_info = some info)
    (hsched : func.schedule_func = some fsched)
    (hpos : (info.map Prod.fst).Nodup)
    (hbuf : (info.map (fun q => fsched.backward.in_arrays.getD q.2 0)).Nodup)
    (hsep : ∀ p ∈ info, ∀ q ∈ info,
      fsched.backward.in_arrays.getD q.2 0
        ≠ (grad_outputs.getD p.1 ⟨0, false⟩).data)
    (hval : ∀ p ∈ info,
      p.1 < grad_outputs.length ∧ p.2 < fsched.backward.in_arrays.length)
    (hvb : ∀ q ∈ info,
      fsched.backward.in_arrays.getD q.2 0 < st.bufs.length) :
    ∃ gs' st',
      check_func_backward_outputs cfg func grad_outputs st = some (gs', st') ∧
      ∀ p ∈ info,
        (gs'.getD p.1 ⟨0, false⟩).data = fsched.backward.in_arrays.getD p.2 0 ∧
        st'.read (fsched.backward.in_arrays.getD p.2 0)
          = st.read ((grad_outputs.getD p.1 ⟨0, false⟩).data) := by
  obtain ⟨gs', st', hrun, _, _, _, _, hmem⟩ :=
    cfbo_fold fsched.backward info grad_outputs st hpos hbuf hsep hval hvb
  refine ⟨gs', st', ?_, ?_⟩
  · simp only [check_func_backward_outputs, hinfo, get_static_schedule, hsched,
      Option.bind_eq_bind, Option.some_bind]
    exact hrun
  · intro p hp
    obtain ⟨h1, h2⟩ := hmem p hp
    exact ⟨by rw [h1], h2⟩

/-- Witness for C2: one slot whose pre-allocated buffer `0` holds `[5]`, a
gradient in buffer `1` holding `[7]`; after the call the gradient is rebound
to buffer `0`, which holds `[7]`. -/
theorem check_func_backward_outputs_spec_witness :
    ∃ gs' st',
      check_func_backward_outputs ⟨none⟩
        ⟨some ⟨[], ⟨[0], [none]⟩⟩, true, none, some [(0, 0)]⟩
        [⟨1, false⟩] ⟨[[5], [7]]⟩ = some (gs', st') ∧
      ∀ p ∈ [((0 : Nat), (0 : Nat))],
        (gs'.getD p.1 ⟨0, false⟩).data
          = (⟨[], ⟨[0], [none]⟩⟩ : Schedule).backward.in_arrays.getD p.2 0 ∧
        st'.read ((⟨[], ⟨[0], [none]⟩⟩ : Schedule).backward.in_arrays.getD p.2 0)
          = (⟨[[5], [7]]⟩ : Store).read
              (([⟨1, false⟩] : List Variable).getD p.1 ⟨0, false⟩).data :=
  check_func_backward_outputs_spec ⟨none⟩
    ⟨some ⟨[], ⟨[0], [none]⟩⟩, true, none, some [(0, 0)]⟩
    ⟨[], ⟨[0], [none]⟩⟩ [(0, 0)] [⟨1, false⟩] ⟨[[5], [7]]⟩
    rfl rfl (by decide) (by decide) (by decide) (by decide) (by decide)

/-- Invariant of the `check_func_backward_inputs` loop: under distinct
positions, distinct slots and in-range indices (with every listed gradient
buffer live in the store), the loop succeeds; each listed slot of
`_out_arrays` ends up referencing the gradient's original buffer, while the
gradient variable is rebound to a freshly allocated buffer (distinct from
every pre-existing buffer) holding the same contents. -/
theorem cfbi_fold :
    ∀ (info : List (Nat × Nat)) (gs : List Variable) (st : Store)
      (bs : BackwardSchedule),
    (info.map Prod.fst).Nodup →
    (info.map Prod.snd).Nodup →
    (∀ p ∈ info, p.1 < gs.length ∧ p.2 < bs.out_arrays.length) →
    (∀ p ∈ info, (gs.getD p.1 ⟨0, false⟩).data < st.bufs.length) →
    ∃ gs' st' bs',
      info.foldlM cfbi_step (gs, st, bs) = some (gs', st', bs') ∧
      gs'.length = gs.length ∧
      st.bufs.length ≤ st'.bufs.length ∧
      bs'.in_arrays = bs.in_arrays ∧
      bs'.out_arrays.length = bs.out_arrays.length ∧
      (∀ b, b < st.bufs.length → st'.read b = st.read b) ∧
      (∀ j, j ∉ info.map Prod.fst → gs'.getD j ⟨0, false⟩ = gs.getD j ⟨0, false⟩) ∧
      (∀ k, k ∉ info.map Prod.snd →
        bs'.out_arrays.getD k none = bs.out_arrays.getD k none) ∧
      (∀ p ∈ info,
        bs'.out_arrays.getD p.2 none = some ((gs.getD p.1 ⟨0, false⟩).data) ∧
        st.bufs.length ≤ (gs'.getD p.1 ⟨0, false⟩).data ∧
        (gs'.getD p.1 ⟨0, false⟩).data < st'.bufs.length ∧
        st'.read ((gs'.getD p.1 ⟨0, false⟩).data)
          = st.read ((gs.getD p.1 ⟨0, false⟩).data))
  | [], gs, st, bs, _, _, _, _ =>
    ⟨gs, st, bs, rfl, rfl, Nat.le_refl _, rfl, rfl, fun _ _ => rfl,
      fun _ _ => rfl, fun _ _ => rfl, fun p hp => absurd hp (List.not_mem_nil p)⟩
  | (i, s) :: rest, gs, st, bs, hpos, hslot, hval, hwf => by
    obtain ⟨hi, hs⟩ := hval (i, s) (List.mem_cons_self _ _)
    have hdlt : (gs.getD i ⟨0, false⟩).data < st.bufs.length :=
      hwf (i, s) (List.mem_cons_self _ _)
    have hstep : cfbi_step (gs, st, bs) (i, s) =
        some (gs.set i { gs.getD i ⟨0, false⟩ with data := st.bufs.length },
          ⟨st.bufs ++ [st.read (gs.getD i ⟨0, false⟩).data]⟩,
          { bs with out_arrays :=
              bs.out_arrays.set s (some (gs.getD i ⟨0, false⟩).data) }) := by
      simp only [cfbi_step, list_getD_of_getElem gs i ⟨0, false⟩ hi,
        Option.bind_eq_bind, Option.some_bind, if_pos hs, Store.alloc]
    simp only [List.map_cons] at hpos hslot
    obtain ⟨hi_notin, hpos'⟩ := List.nodup_cons.mp hpos
    obtain ⟨hs_notin, hslot'⟩ := List.nodup_cons.mp hslot
    have hne_pos : ∀ p ∈ rest, p.1 ≠ i := by
      intro p hp heq
      exact hi_notin (heq ▸ List.mem_map_of_mem Prod.fst hp)
    have hne_slot : ∀ p ∈ rest, p.2 ≠ s := by
      intro p hp heq
      exact hs_notin (heq ▸ List.mem_map_of_mem Prod.snd hp)
    have hgs1_frame : ∀ p ∈ rest,
        (gs.set i { gs.getD i ⟨0, false⟩ with
          data := st.bufs.length }).getD p.1 ⟨0, false⟩
          = gs.getD p.1 ⟨0, false⟩ := by
      intro p hp
      exact list_getD_set_ne gs i p.1 _ _ (hne_pos p hp)
    have hst1_len : (Store.mk
        (st.bufs ++ [st.read (gs.getD i ⟨0, false⟩).data])).bufs.length
        = st.bufs.length + 1 := by
      simp
    obtain ⟨gs', st', bs', hrun, hlen, hsle, hin, holen, hsframe, hgframe,
        hoframe, hmem⟩ :=
      cfbi_fold rest
        (gs.set i { gs.getD i ⟨0, false⟩ with data := st.bufs.length })
        ⟨st.bufs ++ [st.read (gs.getD i ⟨0, false⟩).data]⟩
        { bs with out_arrays :=
            bs.out_arrays.set s (some (gs.getD i ⟨0, false⟩).data) }
        hpos' hslot'
        (by
          intro p hp
          rw [List.length_set, List.length_set]
          exact hval p (List.mem_cons_of_mem _ hp))
        (by
          intro p hp
          rw [hgs1_frame p hp, hst1_len]
          exact Nat.lt_succ_of_lt (hwf p (List.mem_cons_of_mem _ hp)))
    refine ⟨gs', st', bs', ?_, ?_, ?_, ?_, ?_, ?_, ?_, ?_, ?_⟩
    · rw [List.foldlM_cons, hstep]
      simpa using hrun
    · rw [hlen, List.length_set]
    · have h := hsle
      rw [hst1_len] at h
      omega
    · exact hin
    · rw [holen, List.length_set]
    · intro b hblt
      rw [hsframe b (by rw [hst1_len]; exact Nat.lt_succ_of_lt hblt)]
      exact Store.read_alloc_old st _ b hblt
    · intro j hj
      simp only [List.map_cons, List.mem_cons, not_or] at hj
      rw [hgframe j hj.2]
      exact list_getD_set_ne gs i j _ _ hj.1
    · intro k hk
      simp only [List.map_cons, List.mem_cons, not_or] at hk
      rw [hoframe k hk.2]
      exact list_getD_set_ne bs.out_arrays s k _ _ hk.1
    · intro p hp
      rcases List.mem_cons.mp hp with heq | hmem'
      · subst heq
        have hg' : gs'.getD i ⟨0, false⟩
            = { gs.getD i ⟨0, false⟩ with data := st.bufs.length } := by
          rw [hgframe i hi_notin]
          exact list_getD_set_eq gs i _ _ hi
        have hdata : (gs'.getD i ⟨0, false⟩).data = st.bufs.length := by
          rw [hg']
        refine ⟨?_, ?_, ?_, ?_⟩
        · rw [hoframe s hs_notin]
          exact list_getD_set_eq bs.out_arrays s _ _ hs
        · rw [hdata]
        · rw [hdata]
          have h := hsle
          rw [hst1_len] at h
          omega
        · rw [hdata, hsframe st.bufs.length (by rw [hst1_len]; exact Nat.lt_succ_self _)]
          exact Store.read_alloc_new st _
      · obtain ⟨h1, h2, h3, h4⟩ := hmem p hmem'
        refine ⟨?_, ?_, ?_, ?_⟩
        · rw [h1, hgs1_frame p hmem']
        · have h := h2
          rw [hst1_len] at h
          omega
        · exact h3
        · rw [h4, hgs1_frame p hmem']
          exact Store.read_alloc_old st _ _ (hwf p (List.mem_cons_of_mem _ hmem'))

/-! ## Claim theorems: backward bookkeeping, inputs side -/

/-- C3: for an operation whose `_forward_static_arrays_info` is present,
`check_func_backward_inputs` succeeds and, for each recorded
`(position, slot)` pair, the backward schedule's `_out_arrays[slot]` ends up
referencing the buffer that was `grad_inputs[position].data` before the
call, while the gradient variable is rebound to an independent copy: a
different buffer with equal contents, so that a subsequent in-place
mutation of the slot's buffer leaves the returned gradient's contents
unchanged (last conjunct).  Hypotheses: distinct positions, distinct slots
(each slot is then written once), in-range indices, and gradient buffers
live in the store. -/
theorem check_func_backward_inputs_spec (cfg : Config) (func : FunctionNode)
    (fsched : Schedule) (info : List (Nat × Nat))
    (grad_inputs : List Variable) (st : Store)
    (hinfo : func.forward_static_arrays_info = some info)
    (hsched : func.schedule_func = some fsched)
    (hpos : (info.map Prod.fst).Nodup)
    (hslot : (info.map Prod.snd).Nodup)
    (hval : ∀ p ∈ info,
      p.1 < grad_inputs.length ∧ p.2 < fsched.backward.out_arrays.length)
    (hwf : ∀ p ∈ info,
      (grad_inputs.getD p.1 ⟨0, false⟩).data < st.bufs.length) :
    ∃ func' gs' st' bsched',
      check_func_backward_inputs cfg func grad_inputs st
        = some (func', gs', st') ∧
      func'.schedule_func = some { fsched with backward := bsched' } ∧
      ∀ p ∈ info,
        bsched'.out_arrays.getD p.2 none
          = some ((grad_inputs.getD p.1 ⟨0, false⟩).data) ∧
        (gs'.getD p.1 ⟨0, false⟩).data
          ≠ (grad_inputs.getD p.1 ⟨0, false⟩).data ∧
        st'.read ((gs'.getD p.1 ⟨0, false⟩).data)
          = st.read ((grad_inputs.getD p.1 ⟨0, false⟩).data) ∧
        ∀ v, (st'.write ((grad_inputs.getD p.1 ⟨0, false⟩).data) v).read
            ((gs'.getD p.1 ⟨0, false⟩).data)
          = st'.read ((gs'.getD p.1 ⟨0, false⟩).data) := by
  obtain ⟨gs', st', bs', hrun, _, _, _, _, _, _, _, hmem⟩ :=
    cfbi_fold info grad_inputs st fsched.backward hpos hslot hval hwf
  refine ⟨{ func with schedule_func := some { fsched with backward := bs' } },
    gs', st', bs', ?_, rfl, ?_⟩
  · simp only [check_func_backward_inputs, hinfo, get_static_schedule, hsched,
      Option.bind_eq_bind, Option.some_bind, hrun]
  · intro p hp
    obtain ⟨h1, h2, _h3, h4⟩ := hmem p hp
    have hneq : (gs'.getD p.1 ⟨0, false⟩).data
        ≠ (grad_inputs.getD p.1 ⟨0, false⟩).data := by
      have := hwf p hp
      omega
    exact ⟨h1, hneq, h4, fun v => Store.read_write_ne st' _ _ v hneq⟩

/-- Witness for C3: one slot, a gradient in buffer `0` holding `[3]`; after
the call `_out_arrays[0]` references buffer `0` while the gradient is
rebound to the fresh buffer `1` with the same contents. -/
theorem check_func_backward_inputs_spec_witness :
    ∃ func' gs' st' bsched',
      check_func_backward_inputs ⟨none⟩
        ⟨some ⟨[], ⟨[], [none]⟩⟩, true, some [(0, 0)], none⟩
        [⟨0, false⟩] ⟨[[3]]⟩ = some (func', gs', st') ∧
      func'.schedule_func
        = some { (⟨[], ⟨[], [none]⟩⟩ : Schedule) with backward := bsched' } ∧
      ∀ p ∈ [((0 : Nat), (0 : Nat))],
        bsched'.out_arrays.getD p.2 none
          = some ((([⟨0, false⟩] : List Variable).getD p.1 ⟨0, false⟩).data) ∧
        (gs'.getD p.1 ⟨0, false⟩).data
          ≠ (([⟨0, false⟩] : List Variable).getD p.1 ⟨0, false⟩).data ∧
        st'.read ((gs'.getD p.1 ⟨0, false⟩).data)
          = (⟨[[3]]⟩ : Store).read
              ((([⟨0, false⟩] : List Variable).getD p.1 ⟨0, false⟩).data) ∧
        ∀ v, (st'.write ((([⟨0, false⟩] : List Variable).getD p.1 ⟨0, false⟩).data)
            v).read ((gs'.getD p.1 ⟨0, false⟩).data)
          = st'.read ((gs'.getD p.1 ⟨0, false⟩).data) :=
  check_func_backward_inputs_spec ⟨none⟩
    ⟨some ⟨[], ⟨[], [none]⟩⟩, true, some [(0, 0)], none⟩
    ⟨[], ⟨[], [none]⟩⟩ [(0, 0)] [⟨0, false⟩] ⟨[[3]]⟩
    rfl rfl (by decide) (by decide) (by decide) (by decide)
